import Mathlib

/-!
Shallow embedding of `libtsvm/estimators.py` (TwinSVM and Least-Squares
TwinSVM estimators).  Matrices are lists of rows over `ℚ`; the column
count of an operation result is passed explicitly where NumPy would read
it off the array shape (this keeps degenerate 0-row matrices faithful).
`np.linalg.inv` is modelled by an abstract parameter `inv` of type
`Mat → Option Mat` (raising `LinAlgError` = `none`); an exact rational
instance `np_inv` is provided.  The external ClipDCD optimizer
(`libtsvm.optimizer.clipdcd`, not part of the estimators module) is an
abstract parameter `opt`, and floating-point `np.exp` is an abstract
parameter `e` (instantiated with `Real.exp` over `ℝ` where analytic
facts about the kernel are proved).
-/

namespace LibTSVM

/-- A vector of rationals (a NumPy 1-D array). -/
abbrev Vec := List ℚ

/-- A matrix as a list of rows (a NumPy 2-D array). -/
abbrev Mat := List (List ℚ)

/-- Dot product of two vectors, `np.dot` on 1-D arrays. -/
def dot {α : Type} [Field α] (x y : List α) : α :=
  (List.zipWith (· * ·) x y).sum

/-- Column `j` of a matrix (entries default to `0` off the end). -/
def colD {α : Type} [Field α] (M : List (List α)) (j : Nat) : List α :=
  M.map (fun r => r.getD j 0)

/-- Vector–matrix product `np.dot(x, M)` where `M` has `c` columns. -/
def vecMat {α : Type} [Field α] (x : List α) (M : List (List α)) (c : Nat) :
    List α :=
  (List.range c).map (fun j => dot x (colD M j))

/-- Matrix product `np.dot(A, B)` where `B` has `c` columns. -/
def mmul {α : Type} [Field α] (A B : List (List α)) (c : Nat) :
    List (List α) :=
  A.map (fun r => vecMat r B c)

/-- `np.transpose M` where `M` has `c` columns. -/
def tr {α : Type} [Field α] (c : Nat) (M : List (List α)) : List (List α) :=
  (List.range c).map (fun i => colD M i)

/-- Entrywise sum of two same-shaped matrices. -/
def madd (A B : Mat) : Mat := List.zipWith (List.zipWith (· + ·)) A B

/-- Entrywise difference of two same-shaped matrices. -/
def msub (A B : Mat) : Mat := List.zipWith (List.zipWith (· - ·)) A B

/-- Scalar multiple of a matrix. -/
def smul (c : ℚ) (M : Mat) : Mat := M.map (List.map (c * ·))

/-- `np.identity n`. -/
def ident (n : Nat) : Mat :=
  (List.range n).map (fun i => (List.range n).map (fun j => if i = j then (1 : ℚ) else 0))

/-- `np.ones((n, 1))`, the bias column. -/
def onesColV (n : Nat) : Mat := List.replicate n [(1 : ℚ)]

/-- `np.column_stack`, appending the matching rows of `E` to rows of `A`. -/
def colStack (A E : Mat) : Mat := List.zipWith (· ++ ·) A E

/-- Reshape a vector into an `n × 1` column matrix (`reshape(n, 1)`). -/
def colOf (v : Vec) : Mat := v.map (fun a => [a])

/-- All-but-last rows of a column vector, flattened (`h[:h.shape[0]-1, :]`). -/
def initOf (h : Mat) : Vec := h.dropLast.map (fun r => r.getD 0 0)

/-- Last row of a column vector, as a scalar (`h[-1, :]`). -/
def lastOf (h : Mat) : ℚ := (h.getLastD []).getD 0 0

/-- `rbf_kernel(x, y, u) = np.exp(-2*u) * np.exp(2*u*np.dot(x, y))` for a
single sample `x` against a basis matrix `Yt` (already transposed, with
`c` columns), with `e` modelling `np.exp`. -/
def rbf_kernel {α : Type} [Field α] (e : α → α) (x : List α)
    (Yt : List (List α)) (u : α) (c : Nat) : List α :=
  (vecMat x Yt c).map (fun s => e (-(2 * u)) * e (2 * u * s))

/-- `rbf_kernel` applied to a whole sample matrix (row-wise). -/
def rbf_kernel_mat {α : Type} [Field α] (e : α → α) (X Yt : List (List α))
    (u : α) (c : Nat) : List (List α) :=
  X.map (fun x => rbf_kernel e x Yt u c)

/-- The two kernel names recognized by the estimators. -/
inductive Kern : Type
  | linear : Kern
  | rbf : Kern
deriving DecidableEq, Repr

/-- The state a fitted `BaseTSVM` carries into prediction: the kernel
configuration, the stored basis `mat_C_t` (empty for the linear kernel,
where the attribute stays `None`) and the two hyperplanes
`(w1, b1)` / `(w2, b2)`. -/
structure Model : Type where
  kernel : Kern
  gamma : ℚ
  mat_C_t : Mat
  w1 : Vec
  b1 : ℚ
  w2 : Vec
  b2 : ℚ
deriving DecidableEq, Repr

/-- The per-sample kernel transform dispatch of
`BaseTSVM.decision_function`: the raw row for `'linear'`, and
`rbf_kernel(X[i,:], self.mat_C_t, self.gamma)` for `'RBF'`. -/
def kernelRow (e : ℚ → ℚ) (m : Model) (x : Vec) : Vec :=
  match m.kernel with
  | Kern.linear => x
  | Kern.rbf => rbf_kernel e x m.mat_C_t m.gamma ((m.mat_C_t.headD []).length)

/-- `BaseTSVM.decision_function`: row `i` is
`[|k_i·w2 + b2|, |k_i·w1 + b1|]` (index 0 from `w2, b2`, index 1 from
`w1, b1`). -/
def decision_function (e : ℚ → ℚ) (m : Model) (X : Mat) : Mat :=
  X.map (fun x =>
    [ |dot (kernelRow e m x) m.w2 + m.b2|,
      |dot (kernelRow e m x) m.w1 + m.b1| ])

/-- Index of the first minimal element, tail recursion of `argmin`. -/
def argminAux : List ℚ → Nat → ℚ → Nat → Nat
  | [], bi, _, _ => bi
  | x :: xs, bi, bv, i =>
      if x < bv then argminAux xs i x (i + 1) else argminAux xs bi bv (i + 1)

/-- `np.argmin` on a 1-D array: index of the first minimum. -/
def argmin : List ℚ → Nat
  | [] => 0
  | x :: xs => argminAux xs 0 x 1

/-- `BaseTSVM.predict`: `2 * np.argmin(decision_function(X), axis=1) - 1`. -/
def predict (e : ℚ → ℚ) (m : Model) (X : Mat) : List ℤ :=
  (decision_function e m X).map (fun r => 2 * (argmin r : ℤ) - 1)

/-- `BaseTSVM.fit`: the body is `pass`, so the call returns `None`
normally with the estimator unchanged; the error side of `Except` models
a raised exception and is never produced. -/
def baseTSVM_fit (m : Model) (_X : Mat) (_y : Vec) : Except String Model :=
  Except.ok m

/-- Class partition `X[y == lbl]`: rows of `X` whose label equals `lbl`,
in order. -/
def matOf (lbl : ℚ) (ps : List (Vec × ℚ)) : Mat :=
  ps.filterMap (fun p => if p.2 = lbl then some p.1 else none)

/-- `reg_term = 2 ** float(-7)`, the fixed regularization constant. -/
def reg_term : ℚ := 2 ^ (-7 : ℤ)

/-- Python `int(q)`: truncation toward zero. -/
def pyInt (q : ℚ) : ℤ := if 0 ≤ q then ⌊q⌋ else -⌊-q⌋

/-- Determinant by Laplace expansion along the first row, with the row
count as fuel. -/
def det1 : Nat → Mat → ℚ
  | 0, _ => 1
  | Nat.succ n, M =>
      match M with
      | [] => 0
      | r :: Ms =>
          ((List.range r.length).map
            (fun j => (-1 : ℚ) ^ j * r.getD j 0 * det1 n (Ms.map (fun row => row.eraseIdx j)))).sum

/-- Determinant of a square matrix. -/
def det (M : Mat) : ℚ := det1 M.length M

/-- Cofactor of entry `(i, j)`. -/
def cof (M : Mat) (i j : Nat) : ℚ :=
  (-1 : ℚ) ^ (i + j) * det ((M.eraseIdx i).map (fun row => row.eraseIdx j))

/-- Exact model of `np.linalg.inv`: `none` (a raised `LinAlgError`) on a
singular matrix, otherwise the adjugate divided by the determinant. -/
def np_inv (M : Mat) : Option Mat :=
  if det M = 0 then none
  else some ((List.range M.length).map
    (fun i => (List.range M.length).map (fun j => cof M j i / det M)))

/-- Design-matrix construction shared by `TSVM.fit` and `LSTSVM.fit`:
partitioned classes `A`, `B` are turned into `H`, `G` with a bias
column of ones appended; for the RBF kernel the basis
`mat_C_t = np.transpose(np.row_stack((mat_A, mat_B)))[:, :int(n * rect_kernel)]`
is built first and both classes are transformed through `rbf_kernel`.
Returns `(H, G, mat_C_t, width)` where `width` is the common column
count of `H` and `G` (`d + 1` linear, `k + 1` RBF). -/
def buildHG (e : ℚ → ℚ) (kern : Kern) (rect gamma : ℚ) (d : Nat)
    (A B : Mat) : Mat × Mat × Mat × Nat :=
  match kern with
  | Kern.linear =>
      (colStack A (onesColV A.length), colStack B (onesColV B.length), [], d + 1)
  | Kern.rbf =>
      let matC := A ++ B
      let k := (pyInt ((matC.length : ℚ) * rect)).toNat
      let ct := (tr d matC).map (fun row => row.take k)
      (colStack (rbf_kernel_mat e A ct gamma k) (onesColV A.length),
       colStack (rbf_kernel_mat e B ct gamma k) (onesColV B.length), ct, k + 1)

/-- `TSVM.fit` after the class partition: the regularized inverses
`M1 = (HᵗH + εI)⁻¹` and `M2 = (GᵗG + εI)⁻¹`, the dual matrices
`Q1 = G·M1·Gᵗ` and `Q2 = H·M2·Hᵗ` handed to the ClipDCD optimizer
`opt` with penalties `C1` and `C2`, and the hyperplanes
`-M1·Gᵗ·α1` and `M2·Hᵗ·α2` split into `(w, b)`. -/
def tsvm_fit_core (inv : Mat → Option Mat) (opt : Mat → ℚ → Vec)
    (e : ℚ → ℚ) (kern : Kern) (rect c1 c2 gamma : ℚ) (d : Nat)
    (A B : Mat) : Option Model :=
  let hg := buildHG e kern rect gamma d A B
  let H := hg.1
  let G := hg.2.1
  let w := hg.2.2.2
  let Ht := tr w H
  let Gt := tr w G
  match inv (madd (mmul Ht H w) (smul reg_term (ident w))) with
  | none => none
  | some M1 =>
    match inv (madd (mmul Gt G w) (smul reg_term (ident w))) with
    | none => none
    | some M2 =>
      let a1 := colOf (opt (mmul (mmul G M1 w) Gt B.length) c1)
      let a2 := colOf (opt (mmul (mmul H M2 w) Ht A.length) c2)
      let h1 := smul (-1) (mmul (mmul M1 Gt B.length) a1 1)
      let h2 := mmul (mmul M2 Ht A.length) a2 1
      some { kernel := kern, gamma := gamma, mat_C_t := hg.2.2.1,
             w1 := initOf h1, b1 := lastOf h1,
             w2 := initOf h2, b2 := lastOf h2 }

/-- `TSVM.fit`: partition `X` by label into `mat_A` (`y == 1`) and
`mat_B` (`y == -1`), then run the dual-problem pipeline. -/
def tsvm_fit (inv : Mat → Option Mat) (opt : Mat → ℚ → Vec) (e : ℚ → ℚ)
    (kern : Kern) (rect c1 c2 gamma : ℚ) (d : Nat) (X : Mat) (y : Vec) :
    Option Model :=
  tsvm_fit_core inv opt e kern rect c1 c2 gamma d
    (matOf 1 (X.zip y)) (matOf (-1) (X.zip y))

/-- `LSTSVM.fit` after the class partition: closed-form solves — the
normal equations for the linear kernel, and the two SMW branches
(pivot on `G` when `|A| < |B|`, otherwise on `H`) for the RBF kernel. -/
def lstsvm_fit_core (inv : Mat → Option Mat) (e : ℚ → ℚ) (kern : Kern)
    (rect c1 c2 gamma : ℚ) (d : Nat) (A B : Mat) : Option Model :=
  match kern with
  | Kern.linear =>
      let H := colStack A (onesColV A.length)
      let G := colStack B (onesColV B.length)
      let Ht := tr (d + 1) H
      let Gt := tr (d + 1) G
      match inv (madd (mmul Gt G (d + 1)) (smul (1 / c1) (mmul Ht H (d + 1)))) with
      | none => none
      | some N1 =>
        match inv (madd (mmul Ht H (d + 1)) (smul (1 / c2) (mmul Gt G (d + 1)))) with
        | none => none
        | some N2 =>
          let h1 := smul (-1) (mmul N1 (mmul Gt (onesColV B.length) 1) 1)
          let h2 := mmul N2 (mmul Ht (onesColV A.length) 1) 1
          some { kernel := Kern.linear, gamma := gamma, mat_C_t := [],
                 w1 := initOf h1, b1 := lastOf h1,
                 w2 := initOf h2, b2 := lastOf h2 }
  | Kern.rbf =>
      let hg := buildHG e Kern.rbf rect gamma d A B
      let H := hg.1
      let G := hg.2.1
      let w := hg.2.2.2
      let Ht := tr w H
      let Gt := tr w G
      if A.length < B.length then
        match inv (madd (smul reg_term (ident B.length)) (mmul G Gt B.length)) with
        | none => none
        | some P =>
          let Y := smul (1 / reg_term)
            (msub (ident w) (mmul (mmul Gt P B.length) G w))
          match inv (madd (smul c1 (ident A.length))
              (mmul (mmul H Y w) Ht A.length)) with
          | none => none
          | some Q1 =>
            let h1 := mmul (smul (-1) (msub Y
              (mmul (mmul (mmul Y Ht A.length) Q1 A.length) (mmul H Y w) w)))
              (mmul Gt (onesColV B.length) 1) 1
            match inv (madd (smul (1 / c2) (ident A.length))
                (mmul (mmul H Y w) Ht A.length)) with
            | none => none
            | some Q2 =>
              let h2 := mmul (smul c2 (msub Y
                (mmul (mmul (mmul Y Ht A.length) Q2 A.length) (mmul H Y w) w)))
                (mmul Ht (onesColV A.length) 1) 1
              some { kernel := Kern.rbf, gamma := gamma, mat_C_t := hg.2.2.1,
                     w1 := initOf h1, b1 := lastOf h1,
                     w2 := initOf h2, b2 := lastOf h2 }
      else
        match inv (madd (smul reg_term (ident A.length)) (mmul H Ht A.length)) with
        | none => none
        | some P =>
          let Z := smul (1 / reg_term)
            (msub (ident w) (mmul (mmul Ht P A.length) H w))
          match inv (madd (smul (1 / c1) (ident B.length))
              (mmul (mmul G Z w) Gt B.length)) with
          | none => none
          | some Q1 =>
            let h1 := mmul (smul c1 (msub Z
              (mmul (mmul (mmul Z Gt B.length) Q1 B.length) (mmul G Z w) w)))
              (mmul Gt (onesColV B.length) 1) 1
            match inv (madd (smul c2 (ident B.length))
                (mmul (mmul G Z w) Gt B.length)) with
            | none => none
            | some Q2 =>
              let h2 := mmul (msub Z
                (mmul (mmul (mmul Z Gt B.length) Q2 B.length) (mmul G Z w) w))
                (mmul Ht (onesColV A.length) 1) 1
              some { kernel := Kern.rbf, gamma := gamma, mat_C_t := hg.2.2.1,
                     w1 := initOf h1, b1 := lastOf h1,
                     w2 := initOf h2, b2 := lastOf h2 }

/-- `LSTSVM.fit`: partition `X` by label into `mat_A` (`y == 1`) and
`mat_B` (`y == -1`), then run the closed-form pipeline. -/
def lstsvm_fit (inv : Mat → Option Mat) (e : ℚ → ℚ) (kern : Kern)
    (rect c1 c2 gamma : ℚ) (d : Nat) (X : Mat) (y : Vec) : Option Model :=
  lstsvm_fit_core inv e kern rect c1 c2 gamma d
    (matOf 1 (X.zip y)) (matOf (-1) (X.zip y))

/-- A trivial stand-in for `np.linalg.inv` used to instantiate the
`inv` parameter in concrete evaluations of structural theorems. -/
def invI : Mat → Option Mat := fun M => some M

/-- A trivial stand-in for `clipdcd.optimize` (the zero multiplier
vector of the right length). -/
def opt0 : Mat → ℚ → Vec := fun Q _ => List.replicate Q.length 0

/-- A trivial stand-in for `np.exp` over `ℚ` in concrete evaluations. -/
def e0 : ℚ → ℚ := fun q => q

/-- Boolean test for a label being `+1` or `-1`. -/
def keepLbl (p : Vec × ℚ) : Bool := p.2 == 1 || p.2 == -1

lemma matOf_cons (lbl : ℚ) (p : Vec × ℚ) (ps : List (Vec × ℚ)) :
    matOf lbl (p :: ps)
      = if p.2 = lbl then p.1 :: matOf lbl ps else matOf lbl ps := by
  by_cases hp : p.2 = lbl <;> simp [matOf, List.filterMap_cons, hp]

lemma matOf_filter_keep (lbl : ℚ) (hl : lbl = 1 ∨ lbl = -1) :
    ∀ ps : List (Vec × ℚ), matOf lbl (ps.filter keepLbl) = matOf lbl ps := by
  intro ps
  induction ps with
  | nil => rfl
  | cons p ps ih =>
    by_cases hp : keepLbl p = true
    · rw [List.filter_cons_of_pos hp, matOf_cons, matOf_cons, ih]
    · rw [List.filter_cons_of_neg hp, matOf_cons, ih]
      have hp1 : ¬(p.2 = 1) ∧ ¬(p.2 = -1) := by
        simpa [keepLbl, not_or] using hp
      rcases hl with h | h <;>
        simp [h, hp1.1, hp1.2]

lemma zip_filter_unzip (ps : List (Vec × ℚ)) :
    ((ps.filter keepLbl).map Prod.fst).zip ((ps.filter keepLbl).map Prod.snd)
      = ps.filter keepLbl := by
  rw [List.zip_map']
  simp

/-- C10: samples whose label is neither `+1` nor `-1` fall into neither
class partition and are silently ignored: fitting on `(X, y)` produces
exactly the result of fitting on the subsequence of samples whose label
is `+1` or `-1`, for both `TSVM.fit` and `LSTSVM.fit`. -/
theorem fit_ignores_non_pm_labels (inv : Mat → Option Mat)
    (opt : Mat → ℚ → Vec) (e : ℚ → ℚ) (kern : Kern)
    (rect c1 c2 gamma : ℚ) (d : Nat) (X : Mat) (y : Vec) :
    tsvm_fit inv opt e kern rect c1 c2 gamma d X y
      = tsvm_fit inv opt e kern rect c1 c2 gamma d
          (((X.zip y).filter keepLbl).map Prod.fst)
          (((X.zip y).filter keepLbl).map Prod.snd)
    ∧ lstsvm_fit inv e kern rect c1 c2 gamma d X y
      = lstsvm_fit inv e kern rect c1 c2 gamma d
          (((X.zip y).filter keepLbl).map Prod.fst)
          (((X.zip y).filter keepLbl).map Prod.snd) := by
  unfold tsvm_fit lstsvm_fit
  rw [zip_filter_unzip, matOf_filter_keep 1 (Or.inl rfl),
    matOf_filter_keep (-1) (Or.inr rfl)]
  exact ⟨rfl, rfl⟩

/-- C1: `predict` is `2 * argmin(decision_function(X), axis=1) - 1`,
where row `i` of `decision_function` is `[|k_i·w2 + b2|, |k_i·w1 + b1|]`
with `k_i` the kernel transform the estimator was fit with: the raw row
for the linear kernel, `rbf_kernel` against the stored `mat_C_t` basis
for RBF. -/
theorem predict_is_argmin_of_distances (e : ℚ → ℚ) (m : Model) (X : Mat)
    (x : Vec) (g : ℚ) (ct : Mat) (w1v : Vec) (b1 : ℚ) (w2v : Vec) (b2 : ℚ) :
    predict e m X = (decision_function e m X).map (fun r => 2 * (argmin r : ℤ) - 1)
    ∧ decision_function e m X
        = X.map (fun z =>
            [ |dot (kernelRow e m z) m.w2 + m.b2|,
              |dot (kernelRow e m z) m.w1 + m.b1| ])
    ∧ kernelRow e ⟨Kern.linear, g, ct, w1v, b1, w2v, b2⟩ x = x
    ∧ kernelRow e ⟨Kern.rbf, g, ct, w1v, b1, w2v, b2⟩ x
        = rbf_kernel e x ct g ((ct.headD []).length) :=
  ⟨rfl, rfl, rfl, rfl⟩

/-- C9: when the two hyperplane distances of a sample are exactly equal,
`np.argmin` resolves the tie to index 0 — the class `-1` column computed
from `(w2, b2)` — so `predict` returns `-1` for that sample. -/
theorem predict_tie_returns_neg_one (e : ℚ → ℚ) (m : Model) (x : Vec)
    (h : |dot (kernelRow e m x) m.w2 + m.b2|
        = |dot (kernelRow e m x) m.w1 + m.b1|) :
    predict e m [x] = [-1] := by
  unfold predict decision_function
  simp only [List.map_cons, List.map_nil, h, argmin, argminAux,
    lt_irrefl, if_false]
  norm_num

/-- A model whose two hyperplanes coincide, used to exhibit a tied
sample. -/
def mTie : Model := ⟨Kern.linear, 1, [], [0], 0, [0], 0⟩

/-- Witness for C9 at a concrete tied sample. -/
theorem predict_tie_returns_neg_one_witness :
    |dot (kernelRow e0 mTie [1]) mTie.w2 + mTie.b2|
        = |dot (kernelRow e0 mTie [1]) mTie.w1 + mTie.b1|
    ∧ predict e0 mTie [[1]] = [-1] :=
  ⟨by with_unfolding_all rfl,
   predict_tie_returns_neg_one e0 mTie [1] (by with_unfolding_all rfl)⟩

/-- C7 counterexample: calling the base `fit` on a concrete estimator
and input returns normally (the body is `pass`), instead of failing with
a not-implemented condition. -/
theorem base_fit_returns_ok_cex :
    baseTSVM_fit ⟨Kern.linear, 1, [], [0], 0, [0], 0⟩ [[1]] [1]
      = Except.ok ⟨Kern.linear, 1, [], [0], 0, [0], 0⟩ := rfl

/-- C7 amended: `BaseTSVM.fit` has no implementation at all — its body
is `pass`, so for every input it is a no-op that returns `None` with the
estimator unchanged, raising no not-implemented error. -/
theorem base_fit_is_noop (m : Model) (X : Mat) (y : Vec) :
    baseTSVM_fit m X y = Except.ok m := rfl

/-- C2: with `ε = reg_term = 2⁻⁷`, `TSVM.fit` computes
`M1 = (HᵗH + εI)⁻¹`, `M2 = (GᵗG + εI)⁻¹`, hands the dual matrices
`Q1 = G·M1·Gᵗ` (penalty `C1`) and `Q2 = H·M2·Hᵗ` (penalty `C2`) to the
ClipDCD optimizer for `α1, α2`, and stores the hyperplanes
`-M1·Gᵗ·α1` and `+M2·Hᵗ·α2` split into `(w1, b1)` (all-but-last rows,
last row) and `(w2, b2)`. -/
theorem tsvm_fit_hyperplane_formulas (inv : Mat → Option Mat)
    (opt : Mat → ℚ → Vec) (e : ℚ → ℚ) (kern : Kern)
    (rect c1 c2 gamma : ℚ) (d : Nat) (X : Mat) (y : Vec)
    (A B H G ct M1 M2 : Mat) (w : Nat)
    (hA : matOf 1 (X.zip y) = A) (hB : matOf (-1) (X.zip y) = B)
    (hHG : buildHG e kern rect gamma d A B = (H, G, ct, w))
    (h1 : inv (madd (mmul (tr w H) H w) (smul reg_term (ident w))) = some M1)
    (h2 : inv (madd (mmul (tr w G) G w) (smul reg_term (ident w))) = some M2) :
    tsvm_fit inv opt e kern rect c1 c2 gamma d X y
      = some ⟨kern, gamma, ct,
          initOf (smul (-1) (mmul (mmul M1 (tr w G) B.length)
            (colOf (opt (mmul (mmul G M1 w) (tr w G) B.length) c1)) 1)),
          lastOf (smul (-1) (mmul (mmul M1 (tr w G) B.length)
            (colOf (opt (mmul (mmul G M1 w) (tr w G) B.length) c1)) 1)),
          initOf (mmul (mmul M2 (tr w H) A.length)
            (colOf (opt (mmul (mmul H M2 w) (tr w H) A.length) c2)) 1),
          lastOf (mmul (mmul M2 (tr w H) A.length)
            (colOf (opt (mmul (mmul H M2 w) (tr w H) A.length) c2)) 1)⟩ := by
  subst hA hB
  unfold tsvm_fit tsvm_fit_core
  rw [hHG]
  simp only [h1, h2]

/-- Witness for C2 at a concrete linear-kernel training set. -/
theorem tsvm_fit_hyperplane_formulas_witness :
    tsvm_fit invI opt0 e0 Kern.linear 1 1 1 1 1 [[1], [2]] [1, -1]
      = some ⟨Kern.linear, 1, [], [0], 0, [0], 0⟩ :=
  (tsvm_fit_hyperplane_formulas invI opt0 e0 Kern.linear 1 1 1 1 1
      [[1], [2]] [1, -1] _ _ _ _ _ _ _ _ rfl rfl rfl rfl rfl).trans
    (by with_unfolding_all rfl)

/-- C3: for the linear kernel, `LSTSVM.fit` solves the closed-form
normal equations `hyperplane1 = -(GᵗG + (1/C1)·HᵗH)⁻¹·Gᵗ·1` and
`hyperplane2 = +(HᵗH + (1/C2)·GᵗG)⁻¹·Hᵗ·1` with `H = [A | 1]` and
`G = [B | 1]`, splitting each into `(w, b)` = (all-but-last rows, last
row). -/
theorem lstsvm_fit_linear_formulas (inv : Mat → Option Mat) (e : ℚ → ℚ)
    (rect c1 c2 gamma : ℚ) (d : Nat) (X : Mat) (y : Vec)
    (A B H G N1 N2 : Mat)
    (hA : matOf 1 (X.zip y) = A) (hB : matOf (-1) (X.zip y) = B)
    (hH : colStack A (onesColV A.length) = H)
    (hG : colStack B (onesColV B.length) = G)
    (h1 : inv (madd (mmul (tr (d + 1) G) G (d + 1))
        (smul (1 / c1) (mmul (tr (d + 1) H) H (d + 1)))) = some N1)
    (h2 : inv (madd (mmul (tr (d + 1) H) H (d + 1))
        (smul (1 / c2) (mmul (tr (d + 1) G) G (d + 1)))) = some N2) :
    lstsvm_fit inv e Kern.linear rect c1 c2 gamma d X y
      = some ⟨Kern.linear, gamma, [],
          initOf (smul (-1) (mmul N1 (mmul (tr (d + 1) G) (onesColV B.length) 1) 1)),
          lastOf (smul (-1) (mmul N1 (mmul (tr (d + 1) G) (onesColV B.length) 1) 1)),
          initOf (mmul N2 (mmul (tr (d + 1) H) (onesColV A.length) 1) 1),
          lastOf (mmul N2 (mmul (tr (d + 1) H) (onesColV A.length) 1) 1)⟩ := by
  subst hA hB hH hG
  unfold lstsvm_fit lstsvm_fit_core
  simp only [h1, h2]

/-- Witness for C3 at a concrete linear-kernel training set. -/
theorem lstsvm_fit_linear_formulas_witness :
    lstsvm_fit invI e0 Kern.linear 1 1 1 1 1 [[1], [2]] [1, -1]
      = some ⟨Kern.linear, 1, [], [-13], -8, [8], 5⟩ :=
  (lstsvm_fit_linear_formulas invI e0 1 1 1 1 1 [[1], [2]] [1, -1]
      _ _ _ _ _ _ rfl rfl rfl rfl rfl rfl).trans
    (by with_unfolding_all rfl)

/-- C4: for the RBF kernel, `LSTSVM.fit` branches on `|A| < |B|`.  When
true it computes `Y = (1/ε)·(I − Gᵗ·(εI + G·Gᵗ)⁻¹·G)` and sets
`hyperplane1 = −(Y − Y·Hᵗ·(C1·I + H·Y·Hᵗ)⁻¹·H·Y)·Gᵗ·1` and
`hyperplane2 = C2·(Y − Y·Hᵗ·((I/C2) + H·Y·Hᵗ)⁻¹·H·Y)·Hᵗ·1`; otherwise
the symmetric branch pivots on `H` with
`Z = (1/ε)·(I − Hᵗ·(εI + H·Hᵗ)⁻¹·H)`,
`hyperplane1 = C1·(Z − Z·Gᵗ·((I/C1) + G·Z·Gᵗ)⁻¹·G·Z)·Gᵗ·1` and
`hyperplane2 = (Z − Z·Gᵗ·(C2·I + G·Z·Gᵗ)⁻¹·G·Z)·Hᵗ·1`, with exactly
these signs and `C1`/`C2` placements. -/
theorem lstsvm_fit_rbf_branch_formulas (inv : Mat → Option Mat)
    (e : ℚ → ℚ) (rect c1 c2 gamma : ℚ) (d : Nat) (X : Mat) (y : Vec)
    (A B H G ct : Mat) (w : Nat)
    (hA : matOf 1 (X.zip y) = A) (hB : matOf (-1) (X.zip y) = B)
    (hHG : buildHG e Kern.rbf rect gamma d A B = (H, G, ct, w)) :
    lstsvm_fit inv e Kern.rbf rect c1 c2 gamma d X y
      = if A.length < B.length then
          match inv (madd (smul reg_term (ident B.length))
              (mmul G (tr w G) B.length)) with
          | none => none
          | some P =>
            let Y := smul (1 / reg_term)
              (msub (ident w) (mmul (mmul (tr w G) P B.length) G w))
            match inv (madd (smul c1 (ident A.length))
                (mmul (mmul H Y w) (tr w H) A.length)) with
            | none => none
            | some Q1 =>
              let h1 := mmul (smul (-1) (msub Y
                (mmul (mmul (mmul Y (tr w H) A.length) Q1 A.length)
                  (mmul H Y w) w)))
                (mmul (tr w G) (onesColV B.length) 1) 1
              match inv (madd (smul (1 / c2) (ident A.length))
                  (mmul (mmul H Y w) (tr w H) A.length)) with
              | none => none
              | some Q2 =>
                let h2 := mmul (smul c2 (msub Y
                  (mmul (mmul (mmul Y (tr w H) A.length) Q2 A.length)
                    (mmul H Y w) w)))
                  (mmul (tr w H) (onesColV A.length) 1) 1
                some ⟨Kern.rbf, gamma, ct,
                  initOf h1, lastOf h1, initOf h2, lastOf h2⟩
        else
          match inv (madd (smul reg_term (ident A.length))
              (mmul H (tr w H) A.length)) with
          | none => none
          | some P =>
            let Z := smul (1 / reg_term)
              (msub (ident w) (mmul (mmul (tr w H) P A.length) H w))
            match inv (madd (smul (1 / c1) (ident B.length))
                (mmul (mmul G Z w) (tr w G) B.length)) with
            | none => none
            | some Q1 =>
              let h1 := mmul (smul c1 (msub Z
                (mmul (mmul (mmul Z (tr w G) B.length) Q1 B.length)
                  (mmul G Z w) w)))
                (mmul (tr w G) (onesColV B.length) 1) 1
              match inv (madd (smul c2 (ident B.length))
                  (mmul (mmul G Z w) (tr w G) B.length)) with
              | none => none
              | some Q2 =>
                let h2 := mmul (msub Z
                  (mmul (mmul (mmul Z (tr w G) B.length) Q2 B.length)
                    (mmul G Z w) w))
                  (mmul (tr w H) (onesColV A.length) 1) 1
                some ⟨Kern.rbf, gamma, ct,
                  initOf h1, lastOf h1, initOf h2, lastOf h2⟩ := by
  subst hA hB
  unfold lstsvm_fit lstsvm_fit_core
  rw [hHG]

/-- Witness for C4 at a concrete RBF training set taking the
`|A| < |B|` branch. -/
theorem lstsvm_fit_rbf_branch_formulas_witness :
    lstsvm_fit invI e0 Kern.rbf 1 1 1 1 1 [[0], [2], [4]] [1, -1, -1]
      = some ⟨Kern.rbf, 1, [[0, 2, 4]],
          [0, 547844833171936171124832, 1095689666343872342249664],
          -20543114355695665365508,
          [0, -85569570713222055984, -171139141426444111968],
          3208692261185964674⟩ :=
  (lstsvm_fit_rbf_branch_formulas invI e0 1 1 1 1 1 [[0], [2], [4]]
      [1, -1, -1] _ _ _ _ _ _ rfl rfl rfl).trans
    (by with_unfolding_all rfl)

lemma dot_cons (a b : ℝ) (xs ys : List ℝ) :
    dot (a :: xs) (b :: ys) = a * b + dot xs ys := by
  simp [dot]

lemma dot_sub_self (x : List ℝ) : ∀ y : List ℝ, x.length = y.length →
    dot (List.zipWith (· - ·) x y) (List.zipWith (· - ·) x y)
      = dot x x - 2 * dot x y + dot y y := by
  induction x with
  | nil =>
    intro y hy
    have : y = [] := List.length_eq_zero.mp hy.symm
    subst this
    simp [dot]
  | cons a xs ih =>
    intro y hy
    cases y with
    | nil => simp at hy
    | cons b ys =>
      have hlen : xs.length = ys.length := by simpa using hy
      simp only [List.zipWith_cons_cons, dot_cons, ih ys hlen]
      ring

/-- C5: the kernel function returns
`exp(−2·gamma)·exp(2·gamma·dot(x, y_j))` in entry `j` (row-wise for a
matrix-valued first argument), i.e. the reparameterized Gaussian that
omits the squared-norm self-terms: it equals the canonical
`exp(−gamma·‖x − y‖²)` multiplied by the self-term factor
`exp(gamma·(‖x‖² + ‖y‖² − 2))`. -/
theorem rbf_kernel_reparameterized_gaussian (x : List ℝ)
    (Yt : List (List ℝ)) (u : ℝ) (c : Nat) (X : List (List ℝ)) :
    rbf_kernel Real.exp x Yt u c
      = (List.range c).map (fun j =>
          Real.exp (-(2 * u)) * Real.exp (2 * u * dot x (colD Yt j)))
    ∧ rbf_kernel_mat Real.exp X Yt u c
      = X.map (fun z => rbf_kernel Real.exp z Yt u c)
    ∧ ∀ y : List ℝ, x.length = y.length →
        Real.exp (-(2 * u)) * Real.exp (2 * u * dot x y)
          = Real.exp (-(u * dot (List.zipWith (· - ·) x y)
                (List.zipWith (· - ·) x y)))
            * Real.exp (u * (dot x x + dot y y - 2)) := by
  refine ⟨?_, rfl, ?_⟩
  · unfold rbf_kernel vecMat
    rw [List.map_map]
    rfl
  · intro y hy
    rw [dot_sub_self x y hy, ← Real.exp_add, ← Real.exp_add]
    congr 1
    ring

/-- Witness for C5 at a concrete sample and basis vector. -/
theorem rbf_kernel_reparameterized_gaussian_witness :
    (([1] : List ℝ).length = ([0] : List ℝ).length)
    ∧ Real.exp (-(2 * (1 : ℝ))) * Real.exp (2 * (1 : ℝ) * dot [(1 : ℝ)] [(0 : ℝ)])
        = Real.exp (-((1 : ℝ) * dot (List.zipWith (· - ·) [(1 : ℝ)] [(0 : ℝ)])
              (List.zipWith (· - ·) [(1 : ℝ)] [(0 : ℝ)])))
          * Real.exp ((1 : ℝ) * (dot [(1 : ℝ)] [(1 : ℝ)]
              + dot [(0 : ℝ)] [(0 : ℝ)] - 2)) := by
  refine ⟨rfl, ?_⟩
  have h := (rbf_kernel_reparameterized_gaussian [(1 : ℝ)] [[(0 : ℝ)]] 1 1
    [[(1 : ℝ)]]).2.2 [(0 : ℝ)] rfl
  simpa using h

/-- C6 counterexample: on `y = [1, 1]` (no `-1` samples, so `mat_B` is
empty) both `TSVM.fit` and `LSTSVM.fit` with exact inversion complete
and return a fitted model — no invalid-input error is signalled. -/
theorem empty_class_fit_completes_cex :
    tsvm_fit np_inv opt0 e0 Kern.linear 1 1 1 1 1 [[1], [2]] [1, 1]
      = some ⟨Kern.linear, 1, [], [0], 0, [0], 0⟩
    ∧ lstsvm_fit np_inv e0 Kern.linear 1 1 1 1 1 [[1], [2]] [1, 1]
      = some ⟨Kern.linear, 1, [], [0], 0, [0], 1⟩ :=
  ⟨by with_unfolding_all rfl, by with_unfolding_all rfl⟩

/-- C6 amended: neither `TSVM.fit` nor `LSTSVM.fit` validates the class
partitions — for every kernel and every training input, including label
vectors that leave `mat_A` or `mat_B` empty, the only failure channel
is matrix inversion: whenever `inv` succeeds (here: a total inverse
map), both fits complete and return a fitted model, and no
invalid-input error is raised. -/
theorem fit_no_empty_class_validation (inv : Mat → Option Mat)
    (opt : Mat → ℚ → Vec) (e : ℚ → ℚ) (kern : Kern)
    (rect c1 c2 gamma : ℚ) (d : Nat) (X : Mat) (y : Vec) (g : Mat → Mat)
    (hinv : ∀ M : Mat, inv M = some (g M)) :
    (∃ m, tsvm_fit inv opt e kern rect c1 c2 gamma d X y = some m)
    ∧ (∃ m, lstsvm_fit inv e kern rect c1 c2 gamma d X y = some m) := by
  constructor
  · unfold tsvm_fit tsvm_fit_core
    dsimp only
    simp only [hinv]
    exact ⟨_, rfl⟩
  · unfold lstsvm_fit lstsvm_fit_core
    cases kern
    · dsimp only
      simp only [hinv]
      exact ⟨_, rfl⟩
    · dsimp only
      by_cases hlt : (matOf 1 (X.zip y)).length < (matOf (-1) (X.zip y)).length
      · rw [if_pos hlt]
        simp only [hinv]
        exact ⟨_, rfl⟩
      · rw [if_neg hlt]
        simp only [hinv]
        exact ⟨_, rfl⟩

/-- Witness for C6's amended statement: an RBF fit with an empty `-1`
class (`y = [1, 1]`) and a linear fit with an empty `+1` class
(`y = [-1, -1]`) both complete under a total inverse map. -/
theorem fit_no_empty_class_validation_witness :
    (∀ M : Mat, invI M = some (id M))
    ∧ ((∃ m, tsvm_fit invI opt0 e0 Kern.rbf 1 1 1 1 1 [[1], [2]] [1, 1] = some m)
        ∧ (∃ m, lstsvm_fit invI e0 Kern.rbf 1 1 1 1 1 [[1], [2]] [1, 1] = some m))
    ∧ ((∃ m, tsvm_fit invI opt0 e0 Kern.linear 1 1 1 1 1 [[1], [2]] [-1, -1] = some m)
        ∧ (∃ m, lstsvm_fit invI e0 Kern.linear 1 1 1 1 1 [[1], [2]] [-1, -1] = some m)) :=
  ⟨fun _ => rfl,
   fit_no_empty_class_validation invI opt0 e0 Kern.rbf 1 1 1 1 1
     [[1], [2]] [1, 1] id (fun _ => rfl),
   fit_no_empty_class_validation invI opt0 e0 Kern.linear 1 1 1 1 1
     [[1], [2]] [-1, -1] id (fun _ => rfl)⟩

lemma tsvm_fit_mat_C_t (inv : Mat → Option Mat) (opt : Mat → ℚ → Vec)
    (e : ℚ → ℚ) (kern : Kern) (rect c1 c2 gamma : ℚ) (d : Nat)
    (X : Mat) (y : Vec) (m : Model)
    (h : tsvm_fit inv opt e kern rect c1 c2 gamma d X y = some m) :
    m.mat_C_t
      = (buildHG e kern rect gamma d (matOf 1 (X.zip y))
          (matOf (-1) (X.zip y))).2.2.1 := by
  unfold tsvm_fit tsvm_fit_core at h
  dsimp only at h
  split at h
  · simp at h
  · split at h
    · simp at h
    · injection h with h
      rw [← h]

lemma lstsvm_fit_mat_C_t (inv : Mat → Option Mat) (e : ℚ → ℚ)
    (rect c1 c2 gamma : ℚ) (d : Nat) (X : Mat) (y : Vec) (m : Model)
    (h : lstsvm_fit inv e Kern.rbf rect c1 c2 gamma d X y = some m) :
    m.mat_C_t
      = (buildHG e Kern.rbf rect gamma d (matOf 1 (X.zip y))
          (matOf (-1) (X.zip y))).2.2.1 := by
  unfold lstsvm_fit lstsvm_fit_core at h
  dsimp only at h
  split at h
  · split at h
    · simp at h
    · split at h
      · simp at h
      · split at h
        · simp at h
        · injection h with h
          rw [← h]
  · split at h
    · simp at h
    · split at h
      · simp at h
      · split at h
        · simp at h
        · injection h with h
          rw [← h]

lemma tr_length (d : Nat) (M : Mat) : (tr d M).length = d := by
  simp [tr]

lemma tr_row_length (d : Nat) (M : Mat) :
    ∀ row ∈ tr d M, row.length = M.length := by
  intro row hr
  unfold tr at hr
  rcases List.mem_map.mp hr with ⟨i, _, hi⟩
  rw [← hi]
  simp [colD]

lemma tr_map_take (d k : Nat) (M : Mat) :
    (tr d M).map (fun r => r.take k) = tr d (M.take k) := by
  unfold tr
  rw [List.map_map]
  apply List.map_congr_left
  intro i _
  simp only [Function.comp_apply, colD]
  exact (List.map_take _ _ _).symm

lemma pyInt_nonneg (q : ℚ) (h : 0 ≤ q) : pyInt q = ⌊q⌋ := if_pos h

lemma pyInt_mul_le (n : Nat) (rect : ℚ) (h0 : 0 < rect) (h1 : rect ≤ 1) :
    (pyInt ((n : ℚ) * rect)).toNat ≤ n := by
  have hnn : (0 : ℚ) ≤ (n : ℚ) * rect :=
    mul_nonneg (Nat.cast_nonneg n) h0.le
  rw [pyInt_nonneg _ hnn]
  have hle : ⌊(n : ℚ) * rect⌋ ≤ (n : ℤ) := by
    have hmul : (n : ℚ) * rect ≤ (n : ℚ) := by
      nlinarith [Nat.cast_nonneg (α := ℚ) n]
    calc ⌊(n : ℚ) * rect⌋ ≤ ⌊(n : ℚ)⌋ := Int.floor_le_floor hmul
      _ = (n : ℤ) := Int.floor_natCast n
  omega

/-- C8: for every RBF-kernel fit (TSVM or LSTSVM) with
`rect_kernel ∈ (0, 1]`, the stored basis `mat_C_t` is the transpose of
the first `⌊(|A| + |B|)·rect_kernel⌋` rows of class-A samples stacked
above class-B samples, and so has exactly that many columns. -/
theorem rbf_basis_mat_C_t_shape (inv : Mat → Option Mat)
    (opt : Mat → ℚ → Vec) (e : ℚ → ℚ) (rect c1 c2 gamma : ℚ) (d : Nat)
    (X : Mat) (y : Vec) (A B : Mat) (m m2 : Model) (k : Nat)
    (hA : matOf 1 (X.zip y) = A) (hB : matOf (-1) (X.zip y) = B)
    (h0 : 0 < rect) (h1 : rect ≤ 1)
    (hk : (pyInt (((A ++ B).length : ℚ) * rect)).toNat = k)
    (ht : tsvm_fit inv opt e Kern.rbf rect c1 c2 gamma d X y = some m)
    (hl : lstsvm_fit inv e Kern.rbf rect c1 c2 gamma d X y = some m2) :
    m.mat_C_t = tr d ((A ++ B).take k)
    ∧ m2.mat_C_t = tr d ((A ++ B).take k)
    ∧ m.mat_C_t.length = d
    ∧ (∀ row ∈ m.mat_C_t, row.length = k)
    ∧ k = (⌊((A ++ B).length : ℚ) * rect⌋).toNat := by
  subst hA hB hk
  have hbuild : (buildHG e Kern.rbf rect gamma d (matOf 1 (X.zip y))
        (matOf (-1) (X.zip y))).2.2.1
      = (tr d (matOf 1 (X.zip y) ++ matOf (-1) (X.zip y))).map
          (fun r => r.take ((pyInt (((matOf 1 (X.zip y)
            ++ matOf (-1) (X.zip y)).length : ℚ) * rect)).toNat)) := rfl
  have hct : m.mat_C_t = tr d ((matOf 1 (X.zip y)
      ++ matOf (-1) (X.zip y)).take ((pyInt (((matOf 1 (X.zip y)
        ++ matOf (-1) (X.zip y)).length : ℚ) * rect)).toNat)) := by
    rw [tsvm_fit_mat_C_t inv opt e Kern.rbf rect c1 c2 gamma d X y m ht,
      hbuild, tr_map_take]
  have hct2 : m2.mat_C_t = tr d ((matOf 1 (X.zip y)
      ++ matOf (-1) (X.zip y)).take ((pyInt (((matOf 1 (X.zip y)
        ++ matOf (-1) (X.zip y)).length : ℚ) * rect)).toNat)) := by
    rw [lstsvm_fit_mat_C_t inv e rect c1 c2 gamma d X y m2 hl,
      hbuild, tr_map_take]
  refine ⟨hct, hct2, ?_, ?_, ?_⟩
  · rw [hct]
    exact tr_length _ _
  · intro row hr
    rw [hct] at hr
    have hrow := tr_row_length d _ row hr
    rw [hrow, List.length_take]
    exact Nat.min_eq_left (pyInt_mul_le _ rect h0 h1)
  · rw [pyInt_nonneg _ (mul_nonneg (Nat.cast_nonneg _) h0.le)]

/-- Witness for C8 at a concrete RBF fit with `rect_kernel = 1/2`. -/
theorem rbf_basis_mat_C_t_shape_witness :
    (⟨Kern.rbf, 1, [[0]], [0], 0, [0], 0⟩ : Model).mat_C_t
      = tr 1 ((matOf 1 ([[0], [2]].zip [1, -1])
          ++ matOf (-1) ([[0], [2]].zip [1, -1])).take 1) :=
  (rbf_basis_mat_C_t_shape invI opt0 e0 (1 / 2) 1 1 1 1 [[0], [2]]
      [1, -1] _ _ _ _ 1 rfl rfl (by norm_num) (by norm_num)
      (by with_unfolding_all rfl) (by with_unfolding_all rfl)
      (by with_unfolding_all rfl)).1

end LibTSVM
